import Mathlib

/-!
Verification development for the markdown-to-docx converter
(`markdown2docx.py`).  The Python source is shallowly embedded: parser
tokens (Python dicts with `type`, `attrs`, `children`, `raw`/`text`
keys) become the inductive type `Tok`; the docx document that the code
mutates by appending becomes an explicit list of output `Block`s;
Python exceptions become `Option`/`Except`; external collaborators
(filesystem, Pygments lexers) become explicit parameters gathered in
`Env`.  All definitions are computable so that concrete inputs can be
evaluated inside proofs.
-/

/-- Python `s.upper()` (ASCII range, which covers every string the
program upper-cases), modelled over the underlying character list so
that concrete inputs evaluate inside the kernel. -/
def strUpper (s : String) : String := ⟨s.data.map Char.toUpper⟩

/-- Python `s.startswith(p)` over the character list. -/
def strStartsWith (s p : String) : Bool := p.data.isPrefixOf s.data

/-- Python `s.endswith(p)` over the character list. -/
def strEndsWith (s p : String) : Bool := p.data.isSuffixOf s.data

/-- Python `s[n:]` over the character list. -/
def strDrop (s : String) (n : Nat) : String := ⟨s.data.drop n⟩

/-- Python `s[:-n]` over the character list. -/
def strDropRight (s : String) (n : Nat) : String :=
  ⟨s.data.take (s.data.length - n)⟩

/-- First whitespace-delimited word of a string, `s.split()[0]`, with
the empty string for a string with no word (the source only evaluates
this on a non-empty info string; see `render_block_code`). -/
def firstWordD (s : String) : String :=
  ⟨(s.data.dropWhile (fun c => c.isWhitespace)).takeWhile (fun c => !c.isWhitespace)⟩

/-- Attribute values stored in a token attrs mapping (Python dict values
actually used by the program: strings, booleans, numbers). -/
inductive AVal where
  | s (v : String)
  | b (v : Bool)
  | n (v : Nat)
  deriving DecidableEq, Repr

/-- A parser token: `type` discriminator, `attrs` mapping, `children`
list and the `raw`/`text` literal payloads.  A missing `attrs` or
`children` key behaves in the source exactly like an empty one
(every access goes through `token.get(key, default)`), and a missing
`raw`/`text` behaves like the empty string, so those defaults are the
representation of absence here. -/
inductive Tok where
  | mk (ty : String) (attrs : List (String × AVal)) (children : List Tok)
      (raw : String) (txt : String)

/-- The `type` field of a token. -/
def Tok.ty : Tok → String
  | .mk t _ _ _ _ => t

/-- The `attrs` mapping of a token. -/
def Tok.attrs : Tok → List (String × AVal)
  | .mk _ a _ _ _ => a

/-- The `children` list of a token. -/
def Tok.children : Tok → List Tok
  | .mk _ _ c _ _ => c

/-- The `raw` field of a token (empty string when absent). -/
def Tok.raw : Tok → String
  | .mk _ _ _ r _ => r

/-- The `text` field of a token (empty string when absent). -/
def Tok.txt : Tok → String
  | .mk _ _ _ _ x => x

/-- Attribute lookup, `token.get("attrs", {}).get(k)`. -/
def getAttr (t : Tok) (k : String) : Option AVal :=
  List.lookup k t.attrs

/-- String attribute with default: `token.get("attrs", {}).get(k, d)`
restricted to string values. -/
def getStrAttrD (t : Tok) (k : String) (d : String) : String :=
  match getAttr t k with
  | some (.s v) => v
  | _ => d

/-- Boolean attribute with default. -/
def getBoolAttrD (t : Tok) (k : String) (d : Bool) : Bool :=
  match getAttr t k with
  | some (.b v) => v
  | _ => d

/-- Natural-number attribute with default. -/
def getNatAttrD (t : Tok) (k : String) (d : Nat) : Nat :=
  match getAttr t k with
  | some (.n v) => v
  | _ => d

/-- Mirror of `extract_text(children)`: recursively extract literal
text, preferring `raw`, then `text`, then flattening `children`
(the Python truthiness tests on the fetched values become
emptiness tests). -/
def extract_text : List Tok → String
  | [] => ""
  | .mk _ _ cs raw txt :: rest =>
      (if raw ≠ "" then raw
       else if txt ≠ "" then txt
       else if !cs.isEmpty then extract_text cs else "")
        ++ extract_text rest

/-- Mirror of the recurring idiom `tok.get("raw", "") or tok.get("text", "")`:
the `raw` payload, falling back to `text` when `raw` is empty. -/
def rawOrText (t : Tok) : String :=
  if t.raw ≠ "" then t.raw else t.txt

/-- Mirror of the inline-renderer payload fallback
`child.get("raw", "") or child.get("text", "") or child.get("children", "")`
followed by flattening when the result is a list. -/
def inlinePayload (t : Tok) : String :=
  if t.raw ≠ "" then t.raw
  else if t.txt ≠ "" then t.txt
  else extract_text t.children

/-- One alert style row: (border color, background color, label text,
label text color), as in the `ALERT_STYLES` table of the source. -/
def AlertStyle := String × String × String × String
deriving instance DecidableEq for AlertStyle

/-- The `ALERT_STYLES` table of the source, as an association list
keyed by severity (Python dict with unique keys). -/
def ALERT_STYLES : List (String × AlertStyle) :=
  [ ("NOTE", ("4493F8", "DBEAFE", "Note", "4493F8")),
    ("TIP", ("3FB950", "DCFCE7", "Tip", "3FB950")),
    ("IMPORTANT", ("AB7DF8", "F3E8FF", "Important", "AB7DF8")),
    ("WARNING", ("D29922", "FEF9C3", "Warning", "D29922")),
    ("CAUTION", ("F85149", "FEE2E2", "Caution", "F85149")) ]

/-- Mirror of `detect_alert_type(token)`: recognise a GitHub-style
alert blockquote.  Mistune splits the `[!NOTE]` marker into the two
text nodes `[` and `!NOTE]`; the severity is the bracket content
upper-cased, accepted only when it is a key of `ALERT_STYLES`. -/
def detect_alert_type (t : Tok) : Option String :=
  match t.children with
  | [] => none
  | first_child :: _ =>
    if first_child.ty ≠ "paragraph" then none
    else
      match first_child.children with
      | i1 :: i2 :: _ =>
        if i1.ty ≠ "text" ∨ i2.ty ≠ "text" then none
        else
          let first_raw := rawOrText i1
          let second_raw := rawOrText i2
          if first_raw ≠ "[" then none
          else if strStartsWith second_raw "!" ∧ strEndsWith second_raw "]" then
            let alert_type := strUpper (strDropRight (strDrop second_raw 1) 1)
            if (List.lookup alert_type ALERT_STYLES).isSome then
              some alert_type
            else none
          else none
      | _ => none

/-- The body of one iteration of the `preprocess_alerts` loop: a
top-level `block_quote` recognised by `detect_alert_type` is replaced
by an `alert` node (marker inlines dropped, a following soft break
dropped, an emptied first paragraph dropped, blank lines filtered);
every other token passes through unchanged. -/
def alertStep (t : Tok) : Tok :=
  if t.ty = "block_quote" then
    match detect_alert_type t with
    | some alert_type =>
        let body_children :=
          match t.children with
          | first_para :: rest =>
            if first_para.ty = "paragraph" then
              let stripped := first_para.children.drop 2
              let stripped :=
                match stripped with
                | s0 :: srest => if s0.ty = "softbreak" then srest else s0 :: srest
                | [] => []
              match stripped with
              | s0 :: srest =>
                  Tok.mk "paragraph" [] (s0 :: srest) "" "" ::
                    rest.filter (fun c => c.ty ≠ "blank_line")
              | [] =>
                  rest.filter (fun c => c.ty ≠ "blank_line")
            else t.children
          | [] => t.children
        Tok.mk "alert" [("alert_type", AVal.s alert_type)] body_children "" ""
    | none => t
  else t

/-- Mirror of `preprocess_alerts(tokens)`: the loop appends exactly one
token per input token, so the pass is a map of `alertStep`. -/
def preprocess_alerts (ts : List Tok) : List Tok :=
  ts.map alertStep

/-- A Pygments token type, modelled as its path of class names from the
leaf up to (but excluding) the root `Token`; the parent type is the
tail of the list and `Token` itself is `[]`.  For example
`Comment.Preproc` is `["Preproc", "Comment"]` and `Token.Text` is
`["Text"]`. -/
def PygTok := List String
deriving instance DecidableEq for PygTok

/-- Style triple of the `TOKEN_STYLES` table:
(hex color or None, bold, italic). -/
def TokStyle := Option String × Bool × Bool
deriving instance DecidableEq for TokStyle

/-- The `TOKEN_STYLES` table of the source (keys written leaf-first,
see `PygTok`). -/
def TOKEN_STYLES : List (PygTok × TokStyle) :=
  [ (["Comment"], (some "008000", false, true)),
    (["Preproc", "Comment"], (some "AF00DB", true, false)),
    (["Keyword"], (some "0000FF", true, false)),
    (["Constant", "Keyword"], (some "0000FF", true, false)),
    (["Type", "Keyword"], (some "267F99", false, false)),
    (["Builtin", "Name"], (some "795E26", false, false)),
    (["Function", "Name"], (some "795E26", false, false)),
    (["Class", "Name"], (some "267F99", true, false)),
    (["Decorator", "Name"], (some "795E26", false, false)),
    (["Exception", "Name"], (some "267F99", false, false)),
    (["Tag", "Name"], (some "800000", false, false)),
    (["Attribute", "Name"], (some "FF0000", false, false)),
    (["String"], (some "A31515", false, false)),
    (["Number"], (some "098658", false, false)),
    (["Literal"], (some "A31515", false, false)),
    (["Operator"], (some "000000", false, false)),
    (["Word", "Operator"], (some "0000FF", true, false)),
    (["Punctuation"], (some "000000", false, false)),
    (["Heading", "Generic"], (some "0000FF", true, false)),
    (["Subheading", "Generic"], (some "0000FF", true, false)),
    (["Emph", "Generic"], (none, false, true)),
    (["Strong", "Generic"], (none, true, false)),
    (["Error", "Generic"], (some "FF0000", false, false)),
    (["Error"], (some "FF0000", false, false)) ]

/-- Mirror of `get_token_style(token_type)`: walk up the token-type
hierarchy (towards `Token`, which is `[]` here) until a table entry
matches; no entry at all gives `none`. -/
def get_token_style : PygTok → Option TokStyle
  | [] => none
  | leaf :: up =>
      match List.lookup (leaf :: up : List String) TOKEN_STYLES with
      | some sty => some sty
      | none => get_token_style up

/-- The token type emitted by the plain-text fallback lexer
(`pygments.token.Text`). -/
def pygTextToken : PygTok := ["Text"]

/-- Background color of code blocks (`CODE_BG_COLOR`). -/
def CODE_BG_COLOR : String := "F2F2F2"

/-- One docx run: the literal text plus the character formatting the
renderer may set on it.  `mono` stands for the fixed code font
(`Courier New` at 9pt), `brk` for an explicit hard line break added to
the run, and unset tri-state docx properties are modelled as their
effective `false`/`none` values. -/
structure Run where
  text : String
  bold : Bool := false
  italic : Bool := false
  strike : Bool := false
  mono : Bool := false
  color : Option String := none
  brk : Bool := false
  deriving DecidableEq, Repr

/-- Content of a paragraph, in document order: plain runs and
hyperlink elements (in docx a hyperlink wraps its run inside a
separate `w:hyperlink` element with a fixed blue underlined style). -/
inductive PItem where
  | run (r : Run)
  | hyperlink (url : String) (txt : String)
  deriving DecidableEq, Repr

/-- One output paragraph: optional named paragraph style, optional
heading level, content items, and the paragraph-level formatting the
renderer applies (alignment, left indent, background shading, left
border color, bottom border for thematic breaks). -/
structure Para where
  style : Option String := none
  heading : Option Nat := none
  items : List PItem := []
  align : Option String := none
  indent : Bool := false
  shading : Option String := none
  borderLeft : Option String := none
  borderBottom : Bool := false
  deriving DecidableEq, Repr

mutual

/-- One block-level element appended to the output document. -/
inductive Block where
  | para (p : Para)
  | table (rows : List (List CellOut))
  | picture (path : String)

/-- One rendered table cell: the items rendered into the cell's first
paragraph, the blocks appended inside the cell while rendering that
content (for an image node the source hands `paragraph._parent` — the
cell — to `add_image`, so a picture or a missing-image placeholder
paragraph lands inside the cell, after its first paragraph), and the
alignment applied to the first paragraph. -/
inductive CellOut where
  | mk (items : List PItem) (extra : List Block) (align : Option String)

end

/-- The items of a cell's first paragraph. -/
def CellOut.items : CellOut → List PItem
  | .mk its _ _ => its

/-- The blocks appended inside the cell after its first paragraph. -/
def CellOut.extra : CellOut → List Block
  | .mk _ ex _ => ex

/-- The alignment of the cell's first paragraph. -/
def CellOut.align : CellOut → Option String
  | .mk _ _ al => al

/-- External collaborators of the renderer: file existence on disk,
`pygments.lexers.get_lexer_by_name` (`none` models the lookup raising
on an unrecognised name), the plain-text fallback lexer `TextLexer`,
and the directory of the source document. -/
structure Env where
  fs : String → Bool
  getLexer : String → Option (String → List (PygTok × String))
  textLexer : String → List (PygTok × String)
  baseDir : String

/-- Mirror of `resolve_image_path(url, base_dir)`: absolute paths pass
through, relative ones are joined to the base directory. -/
def resolve_image_path (url base_dir : String) : String :=
  if strStartsWith url "/" then url else base_dir ++ "/" ++ url

/-- Mirror of `add_image(doc, url, base_dir)`: a missing file yields a
placeholder text paragraph, an existing one an embedded picture
(scaled by `calculate_image_dimensions`, which only consults the
external image library and is not tracked here). -/
def add_image (env : Env) (url : String) : List Block :=
  let img_path := resolve_image_path url env.baseDir
  if !env.fs img_path then
    [Block.para { items := [PItem.run { text := "[Image not found: " ++ url ++ "]" }] }]
  else
    [Block.picture img_path]

/-- Mirror of `render_inline(paragraph, children, base_dir, bold,
italic, strike)`.  The first component is the items appended to the
current paragraph, the second the blocks appended to the enclosing
container while rendering (pictures and missing-image placeholders,
which the source attaches to `paragraph._parent`).  Unknown inline
types fall through every branch and emit nothing. -/
def render_inline (env : Env) (bold italic strike : Bool) :
    List Tok → List PItem × List Block
  | [] => ([], [])
  | c :: rest =>
    let hd : List PItem × List Block :=
      match c with
      | .mk ty _ cs _ _ =>
        if ty = "text" then
          ([PItem.run { text := inlinePayload c, bold := bold, italic := italic,
                        strike := strike }], [])
        else if ty = "strong" then
          render_inline env true italic strike cs
        else if ty = "emphasis" then
          render_inline env bold true strike cs
        else if ty = "strikethrough" then
          render_inline env bold italic true cs
        else if ty = "codespan" then
          ([PItem.run { text := inlinePayload c, bold := bold, italic := italic,
                        mono := true }], [])
        else if ty = "link" then
          let u := getStrAttrD c "url" ""
          let url := if u ≠ "" then u else getStrAttrD c "href" ""
          if url ≠ "" then ([PItem.hyperlink url (extract_text cs)], []) else ([], [])
        else if ty = "image" then
          let src := getStrAttrD c "src" ""
          if src ≠ "" then ([], add_image env src) else ([], [])
        else if ty = "softbreak" then
          ([PItem.run { text := "\n" }], [])
        else if ty = "linebreak" then
          ([PItem.run { text := "", brk := true }], [])
        else ([], [])
    let tl := render_inline env bold italic strike rest
    (hd.1 ++ tl.1, hd.2 ++ tl.2)

/-- One run of syntax-highlighted code: fixed code font plus the style
looked up hierarchically in `TOKEN_STYLES` (when a style row matches,
its bold/italic flags are assigned outright and its color only when
present, exactly as in the source loop). -/
def codeRun (tt : PygTok) (v : String) : Run :=
  match get_token_style tt with
  | some (c, bo, it) => { text := v, bold := bo, italic := it, mono := true, color := c }
  | none => { text := v, mono := true }

/-- The text a code block hands to the lexer: the `raw` payload with
one trailing newline stripped, as in `render_block_code`. -/
def codeBlockSource (t : Tok) : String :=
  let raw0 := rawOrText t
  if strEndsWith raw0 "\n" then strDropRight raw0 1 else raw0

/-- Mirror of `render_block_code(doc, token)`: strip one trailing
newline, pick a lexer by the first word of the info string (an
unrecognised name makes `get_lexer_by_name` raise, caught and replaced
by the plain-text lexer), lex, and emit one shaded paragraph of
monospace runs, skipping empty-text lexer tokens.  (On an info string
that is non-empty but all whitespace the source raises `IndexError`
from `info.split()[0]`; that corner, outside every claim, is smoothed
to the empty language name here.) -/
def render_block_code (env : Env) (t : Tok) : List Block :=
  let info := getStrAttrD t "info" ""
  let lang := if info = "" then "" else firstWordD info
  let raw1 := codeBlockSource t
  let lexer :=
    if lang = "" then env.textLexer
    else
      match env.getLexer lang with
      | some l => l
      | none => env.textLexer
  let lexed := lexer raw1
  [Block.para
    { shading := some CODE_BG_COLOR,
      items := lexed.filterMap
        (fun p => if p.2 = "" then none else some (PItem.run (codeRun p.1 p.2))) }]

/-- Alignment attribute of a table cell as the string the source
compares against the keys of `align_map`. -/
def getAlignAttr (c : Tok) : Option String :=
  match getAttr c "align" with
  | some (.s v) => some v
  | _ => none

/-- Sequence a fallible computation over a list, failing at the first
failure (the shape of a Python loop whose body may raise). -/
def optTraverse (f : α → Option β) : List α → Option (List β)
  | [] => some []
  | x :: xs => do
    let y ← f x
    let ys ← optTraverse f xs
    pure (y :: ys)

/-- One rendered table cell at column index `ci`: the cell children go
through the inline renderer (bold for header cells), whose first
component fills the cell's first paragraph and whose second component
is the blocks appended inside the cell, and the column alignment from
the header is applied when it is one of the three `align_map` keys. -/
def mkCell (env : Env) (aligns : List (Option String)) (is_header : Bool)
    (ci : Nat) (c : Tok) : CellOut :=
  let r := render_inline env is_header false false c.children
  CellOut.mk r.1 r.2
    (match aligns.get? ci with
     | some (some a) =>
         if a = "left" ∨ a = "center" ∨ a = "right" then some a else none
     | _ => none)

/-- One grid row of the fixed-width table: the docx table is created
with `num_cols` columns, so a source row with more cells raises
`IndexError` (`none` here); a shorter row leaves the trailing grid
cells as created, empty and unaligned. -/
def buildRow (env : Env) (aligns : List (Option String)) (num_cols : Nat)
    (cells : List Tok) (is_header : Bool) : Option (List CellOut) :=
  if cells.length > num_cols then none
  else
    some ((cells.enum.map (fun p => mkCell env aligns is_header p.1 p.2)) ++
      List.replicate (num_cols - cells.length) (CellOut.mk [] [] none))

/-- Mirror of `render_table(doc, token, base_dir)`: the last
`table_head` child is the header row (its children are cells), the
last `table_body` child holds the body rows; the column count is the
first row's cell count; header cells render bold; per-column
alignments are read from the header cells and applied to every row. -/
def render_table (env : Env) (t : Tok) : Option (List Block) :=
  if t.children.isEmpty then some []
  else
    let head : Option Tok :=
      t.children.foldl (fun acc c => if c.ty = "table_head" then some c else acc) none
    let body_rows : List Tok :=
      t.children.foldl (fun acc c => if c.ty = "table_body" then c.children else acc) []
    let all_rows : List (List Tok × Bool) :=
      (match head with
       | some h => [(h.children, true)]
       | none => []) ++ body_rows.map (fun r => (r.children, false))
    match all_rows with
    | [] => some []
    | first :: _ =>
      let num_cols := first.1.length
      let aligns : List (Option String) :=
        match head with
        | some h => h.children.map getAlignAttr
        | none => []
      (optTraverse (fun rw => buildRow env aligns num_cols rw.1 rw.2) all_rows).map
        (fun rows => [Block.table rows])

/-- Severity key that the `render_alert` style lookup uses: the
`alert_type` attribute, defaulting to `NOTE` when absent; a non-string
attribute value cannot be a key of the style dict. -/
def alert_type_of (t : Tok) : Option String :=
  match getAttr t "alert_type" with
  | some (.s v) => some v
  | some _ => none
  | none => some "NOTE"

/-- The `ALERT_STYLES[alert_type]` lookup performed by `render_alert`;
`none` models the `KeyError` the subscript would raise. -/
def alertStyleOf (t : Tok) : Option AlertStyle :=
  match alert_type_of t with
  | some k => List.lookup k ALERT_STYLES
  | none => none

/-- Checkbox glyph chosen by a task-list item's `checked` attribute
(the source appends a trailing space to the glyph). -/
def checkboxGlyph (checked : Bool) : String :=
  if checked then "☑ " else "☐ "

mutual

/-- Mirror of `render_block(doc, token, base_dir)`: dispatch on the
`type` tag; unknown tags are silently skipped.  Exceptions escaping a
handler (alert style `KeyError`, table `IndexError`) surface as
`none`. -/
def render_block (env : Env) : Tok → Option (List Block)
  | t@(.mk ty _ cs _ _) =>
    if ty = "heading" then
      let level := getNatAttrD t "level" 1
      let r := render_inline env false false false cs
      some (Block.para { heading := some level, items := r.1 } :: r.2)
    else if ty = "paragraph" then
      match cs with
      | [only] =>
        if only.ty = "image" then
          let src := getStrAttrD only "src" ""
          if src ≠ "" then some (add_image env src) else some []
        else
          let r := render_inline env false false false [only]
          some (Block.para { items := r.1 } :: r.2)
      | _ =>
        let r := render_inline env false false false cs
        some (Block.para { items := r.1 } :: r.2)
    else if ty = "block_code" then some (render_block_code env t)
    else if ty = "block_quote" then render_bq_children env cs
    else if ty = "alert" then
      match alertStyleOf t with
      | none => none
      | some (border_color, bg_color, label_text, text_color) => do
        let labelRun : PItem :=
          PItem.run { text := label_text, bold := true, color := some text_color }
        let label : Block := Block.para
          { indent := true, shading := some bg_color
            borderLeft := some border_color, items := [labelRun] }
        let body ← render_alert_body env border_color bg_color cs
        pure (label :: body)
    else if ty = "list" then
      let ordered := getBoolAttrD t "ordered" false
      let style := if ordered then "List Number" else "List Bullet"
      render_list_items env style cs
    else if ty = "table" then render_table env t
    else if ty = "thematic_break" then some [Block.para { borderBottom := true }]
    else some []
termination_by t => sizeOf t

/-- Mirror of `render_tokens(doc, tokens, base_dir)`: render each
top-level token in order. -/
def render_tokens (env : Env) : List Tok → Option (List Block)
  | [] => some []
  | t :: rest => do
    let a ← render_block env t
    let b ← render_tokens env rest
    pure (a ++ b)
termination_by ts => sizeOf ts

/-- Mirror of the `render_block_quote` child loop: paragraph children
become indented paragraphs with a gray left border, anything else goes
back through the generic block dispatcher. -/
def render_bq_children (env : Env) : List Tok → Option (List Block)
  | [] => some []
  | c :: rest => do
    let a ←
      if c.ty = "paragraph" then
        let r := render_inline env false false false c.children
        pure (Block.para { indent := true, borderLeft := some "999999", items := r.1 } :: r.2)
      else render_block env c
    let b ← render_bq_children env rest
    pure (a ++ b)
termination_by cs => sizeOf cs

/-- Body loop of `render_alert`. -/
def render_alert_body (env : Env) (border bg : String) : List Tok → Option (List Block)
  | [] => some []
  | c :: rest => do
    let a ←
      if c.ty = "paragraph" then
        let r := render_inline env false false false c.children
        pure (Block.para
          { indent := true, shading := some bg
            borderLeft := some border, items := r.1 } :: r.2)
      else if c.ty = "blank_line" then pure []
      else render_block env c
    let b ← render_alert_body env border bg rest
    pure (a ++ b)
termination_by cs => sizeOf cs

/-- Mirror of `render_list(doc, token, base_dir)`: ordered lists use
the numbered paragraph style, unordered the bulleted one; items are
rendered in order. -/
def render_list (env : Env) : Tok → Option (List Block)
  | t@(.mk _ _ items _ _) =>
    let ordered := getBoolAttrD t "ordered" false
    let style := if ordered then "List Number" else "List Bullet"
    render_list_items env style items
termination_by t => sizeOf t

/-- Item loop of `render_list`: each item contributes the rendering of
its children, as a task item when its tag says so. -/
def render_list_items (env : Env) (style : String) : List Tok → Option (List Block)
  | [] => some []
  | item :: rest => do
    let a ← render_list_item env style item
    let b ← render_list_items env style rest
    pure (a ++ b)
termination_by ts => sizeOf ts

/-- One list item: read its task flag and checked attribute, then walk
its children with the running index starting at 0. -/
def render_list_item (env : Env) (style : String) : Tok → Option (List Block)
  | t@(.mk ity _ ichildren _ _) =>
    let is_task := ity = "task_list_item"
    let checked := getBoolAttrD t "checked" false
    render_item_children env style is_task checked 0 ichildren
termination_by t => sizeOf t

/-- Child loop of one list item, `j` being the running child index:
paragraph or plain-text children become one styled list paragraph each,
with the checkbox glyph prefixed exactly when the item is a task item
and the child index is 0; nested lists recurse; anything else goes
through the generic dispatcher. -/
def render_item_children (env : Env) (style : String) (is_task checked : Bool)
    (j : Nat) : List Tok → Option (List Block)
  | [] => some []
  | c :: rest => do
    let a ←
      if c.ty = "paragraph" ∨ c.ty = "block_text" then
        let glyph : List PItem :=
          if is_task ∧ j = 0 then [PItem.run { text := checkboxGlyph checked }] else []
        let r := render_inline env false false false c.children
        pure (Block.para { style := some style, items := glyph ++ r.1 } :: r.2)
      else if c.ty = "list" then render_list env c
      else render_block env c
    let b ← render_item_children env style is_task checked (j + 1) rest
    pure (a ++ b)
termination_by ts => sizeOf ts

end

/-- Mirror of `render_alert(doc, token, base_dir)`: resolve the style
row (a failed lookup is the `KeyError` case, `none`), emit the bold
colored label paragraph, then the body; this is exactly the `alert`
arm of `render_block`. -/
def render_alert (env : Env) (t : Tok) : Option (List Block) :=
  match alertStyleOf t with
  | none => none
  | some (border_color, bg_color, label_text, text_color) => do
    let labelRun : PItem :=
      PItem.run { text := label_text, bold := true, color := some text_color }
    let label : Block := Block.para
      { indent := true, shading := some bg_color
        borderLeft := some border_color, items := [labelRun] }
    let body ← render_alert_body env border_color bg_color t.children
    pure (label :: body)

/-- Mirror of the loop in `main(files, output)`: convert the files in
order, collecting one output per file; an exception raised while
converting one file (modelled by `Except.error`) propagates out of the
loop, unhandled, aborting the whole invocation. -/
def main_loop (convert : String → Except String String) :
    List String → Except String (List String)
  | [] => .ok []
  | f :: rest => do
    let out ← convert f
    let outs ← main_loop convert rest
    pure (out :: outs)

/-- A heap of Python dict objects: each address holds the contents of
one `attrs` mapping.  This explicit store makes the in-place mutation
performed by `preprocess_images` observable. -/
def Heap := Nat → List (String × AVal)

/-- A child node as `preprocess_images` sees it: its `type` tag and
the address of its `attrs` dict (an absent `attrs` key behaves as an
address holding the empty dict). -/
structure HNode where
  ty : String
  attrs : Nat
  deriving DecidableEq, Repr

/-- A top-level token as `preprocess_images` sees it: the pass scans
exactly one level of children, so only that level is addressed. -/
structure HTok where
  ty : String
  attrs : Nat
  children : List HNode
  deriving DecidableEq, Repr

/-- Python `attrs["src"] = attrs.pop("url")` on one dict value, a
no-op when `url` is absent (dict keys are unique, so removing every
`url` pair and overwriting any existing `src` pair agrees with dict
semantics on every reachable state). -/
def renameUrlToSrc (d : List (String × AVal)) : List (String × AVal) :=
  match List.lookup "url" d with
  | some v =>
      let erased := d.filter (fun p => p.1 ≠ "url")
      if erased.any (fun p => p.1 = "src") then
        erased.map (fun p => if p.1 = "src" then ("src", v) else p)
      else erased ++ [("src", v)]
  | none => d

/-- One iteration of the inner `preprocess_images` loop: an image
child has its attrs dict rewritten in place at its address; every
other child leaves the heap alone. -/
def imgStep (h : Heap) (c : HNode) : Heap :=
  if c.ty = "image" then
    fun a => if a = c.attrs then renameUrlToSrc (h c.attrs) else h a
  else h

/-- The inner loop of `preprocess_images` over one token's children. -/
def imgChildren (h : Heap) : List HNode → Heap
  | [] => h
  | c :: rest => imgChildren (imgStep h c) rest

/-- The outer loop of `preprocess_images` over the top-level tokens. -/
def imgPass (h : Heap) : List HTok → Heap
  | [] => h
  | t :: rest => imgPass (imgChildren h t.children) rest

/-- Mirror of `preprocess_images(tokens)`: mutate the heap through
both loops and return the very token list that was passed in
(`return tokens`). -/
def preprocess_images (h : Heap) (ts : List HTok) : Heap × List HTok :=
  (imgPass h ts, ts)

/-!
Theorems.  Each claim of the specification gets one theorem below,
with supporting fixtures and helper lemmas.
-/

/-- A plain inline text node carrying its content in `raw`. -/
def textTok (s : String) : Tok := Tok.mk "text" [] [] s ""

/-- A demonstration environment: no file exists on disk, no lexer name
is recognised, and the plain-text lexer tokenizes its whole input as
one `Token.Text` chunk with a trailing newline. -/
def envDemo : Env :=
  { fs := (fun _ => false)
    getLexer := (fun _ => none)
    textLexer := (fun s => [(pygTextToken, s ++ "\n")])
    baseDir := "docs" }

/-- The inline payload of a text node is its literal content. -/
theorem inlinePayload_textTok (s : String) :
    inlinePayload (Tok.mk "text" [] [] s "") = s := by
  by_cases h : s = "" <;> simp [inlinePayload, Tok.raw, Tok.txt, Tok.children,
    extract_text, h]

/-- A conversion function for exercising the CLI loop: `bad.md` raises
(for instance its mermaid subprocess fails, or the file is not valid
UTF-8), every other file converts normally. -/
def cvtDemo : String → Except String String :=
  fun f => if f = "bad.md" then .error "boom" else .ok (f ++ ".docx")

/-- C1 counterexample: with `bad.md` failing, the invocation
`main(["good.md", "bad.md", "late.md"])` aborts with the error of
`bad.md` and produces no conversion for `late.md`, even though
`late.md` converts fine on its own — the loop in `main` has no
per-file exception handling, so one failing file does prevent the
remaining files from being converted. -/
theorem main_loop_no_isolation_cex :
    main_loop cvtDemo ["good.md", "bad.md", "late.md"] = .error "boom" ∧
    cvtDemo "late.md" = .ok "late.md.docx" := by
  exact ⟨rfl, rfl⟩

/-- C1 (amended): a failure while converting one file aborts the whole
invocation at that file — files before it are converted, the error
propagates out of the loop, and the files after it are never
processed. -/
theorem main_loop_error_propagates (convert : String → Except String String)
    (pre : List String) (f : String) (rest : List String) (e : String)
    (hpre : ∀ p ∈ pre, ∃ o, convert p = .ok o) (hf : convert f = .error e) :
    main_loop convert (pre ++ f :: rest) = .error e := by
  induction pre with
  | nil => simp [main_loop, hf, Bind.bind, Except.bind]
  | cons p ps ih =>
    obtain ⟨o, ho⟩ := hpre p (by simp)
    have hrec := ih (fun q hq => hpre q (by simp [hq]))
    simp [main_loop, ho, hrec, Bind.bind, Except.bind]

/-- C1 witness: the amended theorem applied to the concrete
three-file invocation. -/
theorem main_loop_error_propagates_witness :
    main_loop cvtDemo (["good.md"] ++ "bad.md" :: ["late.md"]) = .error "boom" :=
  main_loop_error_propagates cvtDemo ["good.md"] "bad.md" ["late.md"] "boom"
    (by intro p hp; simp only [List.mem_singleton] at hp; subst hp
        exact ⟨"good.md.docx", rfl⟩)
    rfl

/-- The three inline wrapper kinds whose flags the inline renderer
accumulates. -/
inductive WrapKind where
  | strong
  | emph
  | strike
  deriving DecidableEq, Repr

/-- The token tag of each wrapper kind. -/
def wrapTy : WrapKind → String
  | .strong => "strong"
  | .emph => "emphasis"
  | .strike => "strikethrough"

/-- Nest a token inside a sequence of wrapper nodes, outermost
first. -/
def wrapNest : List WrapKind → Tok → Tok
  | [], t => t
  | w :: ws, t => Tok.mk (wrapTy w) [] [wrapNest ws t] "" ""

/-- Rendering a text node nested in wrappers `ws` with inherited flags
`(b, i, k)` emits exactly one run whose flags are the inherited flags
OR-ed with the presence of each wrapper kind in `ws`. -/
theorem renderInline_wrapNest (env : Env) (ws : List WrapKind) (s : String)
    (b i k : Bool) :
    render_inline env b i k [wrapNest ws (textTok s)] =
      ([PItem.run { text := s, bold := b || decide (WrapKind.strong ∈ ws),
                    italic := i || decide (WrapKind.emph ∈ ws),
                    strike := k || decide (WrapKind.strike ∈ ws) }], []) := by
  induction ws generalizing b i k with
  | nil =>
    simp [wrapNest, render_inline, textTok, Tok.ty, inlinePayload_textTok]
  | cons w ws ih =>
    cases w <;>
      simp [wrapNest, render_inline, wrapTy, Tok.ty, ih, List.mem_cons]

/-- C2: a text node enclosed in any sequence of nested wrappers drawn
from strong, emphasis and strikethrough renders as one run whose
bold, italic and strike flags are the union (boolean OR) of the
inherited flags and the wrapper kinds present on the path — so a flag
that is true at some recursion depth (inherited `b`, `i` or `k` true,
or a wrapper seen) is still true on the emitted run, and any
permutation of the same wrappers yields an identically styled run. -/
theorem render_inline_wrapper_flags_union (env : Env) (ws wsPerm : List WrapKind)
    (s : String) (b i k : Bool) (hperm : ws.Perm wsPerm) :
    render_inline env b i k [wrapNest ws (textTok s)] =
      ([PItem.run { text := s, bold := b || decide (WrapKind.strong ∈ ws),
                    italic := i || decide (WrapKind.emph ∈ ws),
                    strike := k || decide (WrapKind.strike ∈ ws) }], []) ∧
    render_inline env b i k [wrapNest ws (textTok s)] =
      render_inline env b i k [wrapNest wsPerm (textTok s)] := by
  refine ⟨renderInline_wrapNest env ws s b i k, ?_⟩
  rw [renderInline_wrapNest, renderInline_wrapNest]
  simp only [hperm.mem_iff]

/-- C2 witness: bold inside emphasis, at concrete input, against its
transposition. -/
theorem render_inline_wrapper_flags_union_witness :
    render_inline envDemo false false false
        [wrapNest [WrapKind.strong, WrapKind.emph] (textTok "x")] =
      ([PItem.run
          { text := "x"
            bold := false || decide (WrapKind.strong ∈ [WrapKind.strong, WrapKind.emph])
            italic := false || decide (WrapKind.emph ∈ [WrapKind.strong, WrapKind.emph])
            strike := false || decide (WrapKind.strike ∈ [WrapKind.strong, WrapKind.emph]) }],
        []) ∧
    render_inline envDemo false false false
        [wrapNest [WrapKind.strong, WrapKind.emph] (textTok "x")] =
      render_inline envDemo false false false
        [wrapNest [WrapKind.emph, WrapKind.strong] (textTok "x")] :=
  render_inline_wrapper_flags_union envDemo [WrapKind.strong, WrapKind.emph]
    [WrapKind.emph, WrapKind.strong] "x" false false false
    (List.Perm.swap WrapKind.emph WrapKind.strong [])

/-- A severity string that is one of the five known severities is a
key of the style table. -/
theorem mem_alert_keys {sev : String}
    (h : sev ∈ ["NOTE", "TIP", "IMPORTANT", "WARNING", "CAUTION"]) :
    (List.lookup sev ALERT_STYLES).isSome = true := by
  fin_cases h <;> rfl

/-- A string with the `!` marker in front is non-empty. -/
theorem strStartsWith_bang_ne_empty {m : String}
    (h : strStartsWith m "!" = true) : m ≠ "" := by
  intro he
  rw [he] at h
  exact absurd h (by decide)

/-- The raw-or-text payload of a text node is its `raw` content. -/
theorem rawOrText_textTok (s : String) :
    rawOrText (Tok.mk "text" [] [] s "") = s := by
  by_cases h : s = "" <;> simp [rawOrText, Tok.raw, Tok.txt, h]

/-- The alert body exactly as the claim describes it: the two marker
inlines are already gone (`restInl` is what followed them), one
immediately following soft line break is dropped, the first paragraph
is kept only when inline content remains in it, and blank-line
children are filtered from the following siblings. -/
def alertSpecBody (restInl restCh : List Tok) : List Tok :=
  let inl :=
    match restInl with
    | s0 :: srest => if s0.ty = "softbreak" then srest else s0 :: srest
    | [] => []
  let sibs := restCh.filter (fun c => c.ty ≠ "blank_line")
  match inl with
  | [] => sibs
  | s0 :: srest => Tok.mk "paragraph" [] (s0 :: srest) "" "" :: sibs

/-- A token the detector rejects passes through `alertStep`
unchanged. -/
theorem alertStep_of_detect_none {t : Tok} (h : detect_alert_type t = none) :
    alertStep t = t := by
  unfold alertStep
  split
  · rw [h]
  · rfl

/-- C3: a top-level block_quote whose first child is a paragraph whose
first two inline children are the text nodes `[` and `!SEVERITY]`
(severity recognised case-insensitively among NOTE, TIP, IMPORTANT,
WARNING, CAUTION) is replaced by the alert-normalization pass with an
`alert` node of that severity whose body drops the marker inlines, an
immediately following soft break, the emptied first paragraph, and
blank-line children; every blockquote the detector rejects passes
through unchanged. -/
theorem preprocess_alerts_spec (battrs : List (String × AVal))
    (braw btxt m sev : String) (restInl restCh pre post : List Tok)
    (hstart : strStartsWith m "!" = true) (hend : strEndsWith m "]" = true)
    (hsev : sev = strUpper (strDropRight (strDrop m 1) 1))
    (hmem : sev ∈ ["NOTE", "TIP", "IMPORTANT", "WARNING", "CAUTION"]) :
    preprocess_alerts (pre ++ Tok.mk "block_quote" battrs
        (Tok.mk "paragraph" [] (textTok "[" :: textTok m :: restInl) "" "" :: restCh)
        braw btxt :: post) =
      preprocess_alerts pre ++ Tok.mk "alert" [("alert_type", AVal.s sev)]
        (alertSpecBody restInl restCh) "" "" :: preprocess_alerts post ∧
    (∀ t, detect_alert_type t = none → ∀ pre2 post2,
      preprocess_alerts (pre2 ++ t :: post2) =
        preprocess_alerts pre2 ++ t :: preprocess_alerts post2) := by
  have hm : m ≠ "" := strStartsWith_bang_ne_empty hstart
  have hdet : detect_alert_type (Tok.mk "block_quote" battrs
      (Tok.mk "paragraph" [] (textTok "[" :: textTok m :: restInl) "" "" :: restCh)
      braw btxt) = some sev := by
    rw [hsev]
    simp [detect_alert_type, Tok.ty, Tok.children, textTok, rawOrText, Tok.raw, Tok.txt,
      hm, hstart, hend, mem_alert_keys hmem, hsev ▸ mem_alert_keys hmem]
  have hstep : alertStep (Tok.mk "block_quote" battrs
      (Tok.mk "paragraph" [] (textTok "[" :: textTok m :: restInl) "" "" :: restCh)
      braw btxt) =
      Tok.mk "alert" [("alert_type", AVal.s sev)]
        (alertSpecBody restInl restCh) "" "" := by
    cases restInl with
    | nil => simp [alertStep, Tok.ty, hdet, Tok.children, alertSpecBody]
    | cons s0 srest =>
      cases s0 with
      | mk sty sattrs sch sraw stxt =>
        by_cases hs : sty = "softbreak"
        · subst hs
          cases srest <;>
            simp [alertStep, Tok.ty, hdet, Tok.children, alertSpecBody]
        · simp [alertStep, Tok.ty, hdet, Tok.children, alertSpecBody, hs]
  constructor
  · simp [preprocess_alerts, hstep]
  · intro t ht pre2 post2
    simp [preprocess_alerts, alertStep_of_detect_none ht]

/-- C3 witness: a concrete `[!warning]` blockquote with a soft break
and body text, inside a one-token document. -/
theorem preprocess_alerts_spec_witness :
    preprocess_alerts ([] ++ Tok.mk "block_quote" []
        (Tok.mk "paragraph" []
          (textTok "[" :: textTok "!warning]" ::
            [Tok.mk "softbreak" [] [] "" "", textTok "stay alert"]) "" "" ::
          [Tok.mk "blank_line" [] [] "" ""])
        "" "" :: []) =
      preprocess_alerts [] ++ Tok.mk "alert" [("alert_type", AVal.s "WARNING")]
        (alertSpecBody [Tok.mk "softbreak" [] [] "" "", textTok "stay alert"]
          [Tok.mk "blank_line" [] [] "" ""]) "" "" :: preprocess_alerts [] ∧
    (∀ t, detect_alert_type t = none → ∀ pre2 post2,
      preprocess_alerts (pre2 ++ t :: post2) =
        preprocess_alerts pre2 ++ t :: preprocess_alerts post2) :=
  preprocess_alerts_spec [] "" "" "!warning]" "WARNING"
    [Tok.mk "softbreak" [] [] "" "", textTok "stay alert"]
    [Tok.mk "blank_line" [] [] "" ""] [] []
    (by decide) (by decide) (by decide) (by decide)

/-- Filtering out every pair with key `k` leaves no `k` binding. -/
theorem lookup_filter_ne (k : String) (d : List (String × AVal)) :
    List.lookup k (d.filter (fun p => p.1 ≠ k)) = none := by
  induction d with
  | nil => rfl
  | cons p ps ih =>
    by_cases h : p.1 = k
    · simp only [List.filter_cons, h]
      simpa using ih
    · have hbe : (k == p.1) = false := beq_eq_false_iff_ne.mpr (Ne.symm h)
      simp only [List.filter_cons]
      simpa [List.lookup, h, hbe] using ih

/-- Lookup on a cons misses exactly when it misses the head key and
the tail. -/
theorem lookup_cons_none {k : String} {p : String × AVal}
    {ps : List (String × AVal)} :
    List.lookup k (p :: ps) = none ↔
      (k == p.1) = false ∧ List.lookup k ps = none := by
  cases hbe : (k == p.1) <;> simp [List.lookup, hbe]

/-- Overwriting the `src` values of an association list cannot create
a `url` binding. -/
theorem lookup_url_map_src (v : AVal) (l : List (String × AVal))
    (h : List.lookup "url" l = none) :
    List.lookup "url" (l.map (fun p => if p.1 = "src" then ("src", v) else p)) =
      none := by
  induction l with
  | nil => rfl
  | cons p ps ih =>
    obtain ⟨hk, hps⟩ := lookup_cons_none.mp h
    rw [List.map_cons]
    refine lookup_cons_none.mpr ⟨?_, ih hps⟩
    by_cases hs : p.1 = "src"
    · simp only [hs, if_true]
      decide
    · simp only [hs, if_false]
      exact hk

/-- Lookup misses an append when it misses both parts. -/
theorem lookup_none_append (k : String) (l1 l2 : List (String × AVal))
    (h1 : List.lookup k l1 = none) (h2 : List.lookup k l2 = none) :
    List.lookup k (l1 ++ l2) = none := by
  induction l1 with
  | nil => simpa using h2
  | cons p ps ih =>
    obtain ⟨hk, hps⟩ := lookup_cons_none.mp h1
    rw [List.cons_append]
    exact lookup_cons_none.mpr ⟨hk, ih hps⟩

/-- After the url-to-src rename no `url` binding remains. -/
theorem lookup_url_renameUrlToSrc (d : List (String × AVal)) :
    List.lookup "url" (renameUrlToSrc d) = none := by
  unfold renameUrlToSrc
  cases hu : List.lookup "url" d with
  | none => exact hu
  | some v =>
    by_cases hs : (d.filter (fun p => p.1 ≠ "url")).any (fun p => p.1 = "src")
    · simp only [hs, if_true]
      exact lookup_url_map_src v _ (lookup_filter_ne "url" d)
    · simp only [hs, if_false]
      refine lookup_none_append _ _ _ (lookup_filter_ne "url" d) ?_
      simp [List.lookup]

/-- The rename is the identity on a dict without a `url` binding. -/
theorem renameUrlToSrc_of_no_url (d : List (String × AVal))
    (h : List.lookup "url" d = none) : renameUrlToSrc d = d := by
  unfold renameUrlToSrc
  rw [h]

/-- One image step never creates a `url` binding anywhere. -/
theorem imgStep_preserves_no_url (h : Heap) (c : HNode) (a : Nat)
    (ha : List.lookup "url" (h a) = none) :
    List.lookup "url" (imgStep h c a) = none := by
  unfold imgStep
  split
  · by_cases he : a = c.attrs
    · subst he
      simp [lookup_url_renameUrlToSrc]
    · simp [he, ha]
  · exact ha

/-- After its own step, an image child has no `url` binding left. -/
theorem imgStep_no_url_self (h : Heap) (c : HNode) (hc : c.ty = "image") :
    List.lookup "url" (imgStep h c c.attrs) = none := by
  simp [imgStep, hc, lookup_url_renameUrlToSrc]

/-- An image step only writes the attrs address of its image child. -/
theorem imgStep_frame (h : Heap) (c : HNode) (a : Nat)
    (ha : c.ty = "image" → a ≠ c.attrs) : imgStep h c a = h a := by
  unfold imgStep
  split
  · simp [ha (by assumption)]
  · rfl

/-- An image step whose target dict has no `url` binding is the
identity on the heap. -/
theorem imgStep_id (h : Heap) (c : HNode)
    (hnu : c.ty = "image" → List.lookup "url" (h c.attrs) = none) :
    imgStep h c = h := by
  unfold imgStep
  split
  · funext a
    by_cases he : a = c.attrs
    · subst he
      simp [renameUrlToSrc_of_no_url _ (hnu (by assumption))]
    · simp [he]
  · rfl

/-- The inner children loop never creates a `url` binding. -/
theorem imgChildren_preserves_no_url (cs : List HNode) (h : Heap) (a : Nat)
    (ha : List.lookup "url" (h a) = none) :
    List.lookup "url" (imgChildren h cs a) = none := by
  induction cs generalizing h with
  | nil => exact ha
  | cons c rest ih => exact ih _ (imgStep_preserves_no_url h c a ha)

/-- After the inner loop, no image child among those scanned still
has a `url` binding. -/
theorem imgChildren_no_url (cs : List HNode) (h : Heap) :
    ∀ c ∈ cs, c.ty = "image" →
      List.lookup "url" (imgChildren h cs c.attrs) = none := by
  induction cs generalizing h with
  | nil => intro c hc; cases hc
  | cons c0 rest ih =>
    intro c hc hty
    rcases List.mem_cons.mp hc with he | hmem
    · subst he
      exact imgChildren_preserves_no_url rest _ _ (imgStep_no_url_self h c hty)
    · exact ih (imgStep h c0) c hmem hty

/-- The inner loop only writes the attrs addresses of the scanned
image children. -/
theorem imgChildren_frame (cs : List HNode) (h : Heap) (a : Nat)
    (ha : ∀ c ∈ cs, c.ty = "image" → c.attrs ≠ a) :
    imgChildren h cs a = h a := by
  induction cs generalizing h with
  | nil => rfl
  | cons c rest ih =>
    rw [imgChildren, ih _ (fun c2 hc2 => ha c2 (List.mem_cons_of_mem _ hc2))]
    exact imgStep_frame h c a
      (fun hty he => ha c (List.mem_cons_self _ _) hty he.symm)

/-- The inner loop is the identity when none of the scanned image
children has a `url` binding. -/
theorem imgChildren_id (cs : List HNode) (h : Heap)
    (hall : ∀ c ∈ cs, c.ty = "image" → List.lookup "url" (h c.attrs) = none) :
    imgChildren h cs = h := by
  induction cs generalizing h with
  | nil => rfl
  | cons c rest ih =>
    rw [imgChildren, imgStep_id h c (hall c (List.mem_cons_self _ _)),
      ih _ (fun c2 hc2 => hall c2 (List.mem_cons_of_mem _ hc2))]

/-- The full pass never creates a `url` binding. -/
theorem imgPass_preserves_no_url (ts : List HTok) (h : Heap) (a : Nat)
    (ha : List.lookup "url" (h a) = none) :
    List.lookup "url" (imgPass h ts a) = none := by
  induction ts generalizing h with
  | nil => exact ha
  | cons t rest ih =>
    exact ih _ (imgChildren_preserves_no_url t.children h a ha)

/-- After the full pass, no image child of any top-level token still
has a `url` binding. -/
theorem imgPass_no_url (ts : List HTok) (h : Heap) :
    ∀ t ∈ ts, ∀ c ∈ t.children, c.ty = "image" →
      List.lookup "url" (imgPass h ts c.attrs) = none := by
  induction ts generalizing h with
  | nil => intro t ht; cases ht
  | cons t0 rest ih =>
    intro t ht c hc hty
    rcases List.mem_cons.mp ht with he | hmem
    · subst he
      exact imgPass_preserves_no_url rest _ _
        (imgChildren_no_url t.children h c hc hty)
    · exact ih (imgChildren h t0.children) t hmem c hc hty

/-- The full pass only writes the attrs addresses of image
children. -/
theorem imgPass_frame (ts : List HTok) (h : Heap) (a : Nat)
    (ha : ∀ t ∈ ts, ∀ c ∈ t.children, c.ty = "image" → c.attrs ≠ a) :
    imgPass h ts a = h a := by
  induction ts generalizing h with
  | nil => rfl
  | cons t rest ih =>
    rw [imgPass, ih _ (fun t2 ht2 => ha t2 (List.mem_cons_of_mem _ ht2))]
    exact imgChildren_frame t.children h a (ha t (List.mem_cons_self _ _))

/-- The full pass is the identity when no image child has a `url`
binding. -/
theorem imgPass_id (ts : List HTok) (h : Heap)
    (hall : ∀ t ∈ ts, ∀ c ∈ t.children, c.ty = "image" →
      List.lookup "url" (h c.attrs) = none) :
    imgPass h ts = h := by
  induction ts generalizing h with
  | nil => rfl
  | cons t rest ih =>
    rw [imgPass, imgChildren_id t.children h (hall t (List.mem_cons_self _ _)),
      ih _ (fun t2 ht2 => hall t2 (List.mem_cons_of_mem _ ht2))]

/-- C9: the image attribute-key normalization is idempotent — running
`preprocess_images` a second time, on the heap and tree produced by
the first run, changes nothing: the first run leaves no `url` binding
on any scanned image child, so the second run rewrites nothing (an
attribute already renamed from url to src is never renamed again). -/
theorem preprocess_images_idempotent (h : Heap) (ts : List HTok) :
    preprocess_images (preprocess_images h ts).1 (preprocess_images h ts).2 =
      preprocess_images h ts := by
  unfold preprocess_images
  simp only [Prod.mk.injEq, and_true]
  exact imgPass_id ts (imgPass h ts) (fun t ht c hc hty =>
    imgPass_no_url ts h t ht c hc hty)

/-- A one-paragraph tree whose image child keeps its attrs dict at
address 1 (the paragraph's own attrs live at address 0). -/
def toksImg : List HTok := [⟨"paragraph", 0, [⟨"image", 1⟩]⟩]

/-- A heap whose every dict is `{"url": "x.png"}`. -/
def heapImg : Heap := fun _ => [("url", AVal.s "x.png")]

/-- C8 counterexample: `preprocess_images` is not a pure rewriter — it
returns the very tree it was given while the attrs mapping of the
image node (address 1) has been mutated in place, so the tree the
caller passed in does not survive unchanged. -/
theorem preprocess_images_mutates_cex :
    (preprocess_images heapImg toksImg).2 = toksImg ∧
    (preprocess_images heapImg toksImg).1 1 ≠ heapImg 1 := by
  refine ⟨rfl, ?_⟩
  intro h
  have : ([("src", AVal.s "x.png")] : List (String × AVal)) =
      [("url", AVal.s "x.png")] := h
  simp at this

/-- Addresses of the attrs dicts that `preprocess_images` may write:
those of image children of the scanned top level. -/
def imageAttrAddr (ts : List HTok) (a : Nat) : Prop :=
  ∃ t ∈ ts, ∃ c ∈ t.children, c.ty = "image" ∧ c.attrs = a

instance (ts : List HTok) (a : Nat) : Decidable (imageAttrAddr ts a) := by
  unfold imageAttrAddr
  infer_instance

/-- C8 (amended): `preprocess_images` returns the tree object it was
given and performs the url-to-src rename by mutating the attrs
mappings of image children in place; its writes are confined to
exactly those attrs addresses — every other address of the heap is
left unchanged.  (The other two passes, `preprocess_mermaid` and
`preprocess_alerts`, build a fresh top-level list and never write to
any node; the alert pass is the value-level function
`preprocess_alerts` above.) -/
theorem preprocess_images_frame (h : Heap) (ts : List HTok) (a : Nat)
    (ha : ¬ imageAttrAddr ts a) :
    (preprocess_images h ts).2 = ts ∧ (preprocess_images h ts).1 a = h a := by
  refine ⟨rfl, ?_⟩
  unfold preprocess_images
  refine imgPass_frame ts h a ?_
  intro t ht c hc hty he
  exact ha ⟨t, ht, c, hc, hty, he⟩

/-- C8 witness: the frame theorem applied at address 0, the paragraph
attrs dict, which the pass leaves untouched. -/
theorem preprocess_images_frame_witness :
    (preprocess_images heapImg toksImg).2 = toksImg ∧
    (preprocess_images heapImg toksImg).1 0 = heapImg 0 :=
  preprocess_images_frame heapImg toksImg 0 (by decide)

/-- C10: on trees coming out of the alert-normalization pass (whose
input, raw parser or mermaid-pass output, has no `alert` node), every
`alert` node carries an `alert_type` attribute that is a key of
`ALERT_STYLES`; `detect_alert_type` only ever returns keys of that
table; the lookup `render_alert` performs succeeds on any such node;
and when the attribute is absent the lookup substitutes the default
severity NOTE, so the `ALERT_STYLES[...]` subscript in `render_alert`
never raises on such trees. -/
theorem alert_style_lookup_safe (tokens : List Tok)
    (hno : ∀ t ∈ tokens, t.ty ≠ "alert") :
    (∀ t ∈ preprocess_alerts tokens, t.ty = "alert" →
      ∃ sev sty, getAttr t "alert_type" = some (AVal.s sev) ∧
        List.lookup sev ALERT_STYLES = some sty) ∧
    (∀ t sev, detect_alert_type t = some sev →
      (List.lookup sev ALERT_STYLES).isSome = true) ∧
    (∀ t, t.ty = "alert" →
      (∃ sev sty, getAttr t "alert_type" = some (AVal.s sev) ∧
        List.lookup sev ALERT_STYLES = some sty) →
      (alertStyleOf t).isSome = true) ∧
    (∀ t, getAttr t "alert_type" = none →
      alert_type_of t = some "NOTE" ∧
        alertStyleOf t = some ("4493F8", "DBEAFE", "Note", "4493F8")) := by
  have hdet : ∀ t sev, detect_alert_type t = some sev →
      (List.lookup sev ALERT_STYLES).isSome = true := by
    intro t sev h
    unfold detect_alert_type at h
    split at h
    · exact absurd h (by simp)
    · split at h
      · exact absurd h (by simp)
      · split at h
        · simp only [ne_eq] at h
          split_ifs at h with h1 h2 h3 h4
          all_goals
            obtain rfl := Option.some.inj h
            assumption
        · exact absurd h (by simp)
  refine ⟨?_, hdet, ?_, ?_⟩
  · intro t ht hty
    obtain ⟨s, hs, rfl⟩ := List.mem_map.mp ht
    cases hd : detect_alert_type s with
    | none =>
      rw [alertStep_of_detect_none hd] at hty
      exact absurd hty (hno s hs)
    | some sev =>
      by_cases hbq : s.ty = "block_quote"
      · have hk := hdet s sev hd
        obtain ⟨sty, hsty⟩ := Option.isSome_iff_exists.mp hk
        refine ⟨sev, sty, ?_, hsty⟩
        unfold alertStep
        simp only [hbq, if_true, hd]
        rfl
      · rw [show alertStep s = s from by unfold alertStep; simp [hbq]] at hty
        exact absurd hty (hno s hs)
  · intro t _ h
    obtain ⟨sev, sty, hattr, hsty⟩ := h
    have h1 : alert_type_of t = some sev := by simp [alert_type_of, hattr]
    simp [alertStyleOf, h1, hsty]
  · intro t hattr
    have h1 : alert_type_of t = some "NOTE" := by simp [alert_type_of, hattr]
    refine ⟨h1, ?_⟩
    simp only [alertStyleOf, h1]
    decide

/-- C10 witness: the safety theorem applied to a concrete one-token
document holding a `[!caution]` blockquote. -/
theorem alert_style_lookup_safe_witness :
    (∀ t ∈ preprocess_alerts [Tok.mk "block_quote" []
        [Tok.mk "paragraph" [] [textTok "[", textTok "!caution]"] "" ""] "" ""],
      t.ty = "alert" →
      ∃ sev sty, getAttr t "alert_type" = some (AVal.s sev) ∧
        List.lookup sev ALERT_STYLES = some sty) ∧
    (∀ t sev, detect_alert_type t = some sev →
      (List.lookup sev ALERT_STYLES).isSome = true) ∧
    (∀ t, t.ty = "alert" →
      (∃ sev sty, getAttr t "alert_type" = some (AVal.s sev) ∧
        List.lookup sev ALERT_STYLES = some sty) →
      (alertStyleOf t).isSome = true) ∧
    (∀ t, getAttr t "alert_type" = none →
      alert_type_of t = some "NOTE" ∧
        alertStyleOf t = some ("4493F8", "DBEAFE", "Note", "4493F8")) :=
  alert_style_lookup_safe _ (by
    intro t ht
    simp only [List.mem_singleton] at ht
    subst ht
    decide)

/-- C7: when the resolved path of an image reference does not exist on
disk, `add_image` emits a placeholder text paragraph that contains the
original reference string instead of a picture, raises nothing, and
rendering continues: the rest of the document still produces its
output after the placeholder. -/
theorem missing_image_placeholder (env : Env) (url : String) (rest : List Tok)
    (hmiss : env.fs (resolve_image_path url env.baseDir) = false)
    (hurl : url ≠ "") :
    add_image env url =
      [Block.para { items := [PItem.run { text := "[Image not found: " ++ url ++ "]" }] }] ∧
    (∃ a b, "[Image not found: " ++ url ++ "]" = a ++ url ++ b) ∧
    render_tokens env
        (Tok.mk "paragraph" [] [Tok.mk "image" [("src", AVal.s url)] [] "" ""] "" ""
          :: rest) =
      (render_tokens env rest).map
        (fun bs =>
          Block.para { items := [PItem.run { text := "[Image not found: " ++ url ++ "]" }] }
            :: bs) := by
  have himg : add_image env url =
      [Block.para { items := [PItem.run { text := "[Image not found: " ++ url ++ "]" }] }] := by
    simp [add_image, hmiss]
  refine ⟨himg, ⟨"[Image not found: ", "]", rfl⟩, ?_⟩
  rw [render_tokens]
  have hblk : render_block env
      (Tok.mk "paragraph" [] [Tok.mk "image" [("src", AVal.s url)] [] "" ""] "" "") =
      some [Block.para { items := [PItem.run { text := "[Image not found: " ++ url ++ "]" }] }] := by
    rw [render_block]
    simp [Tok.ty, getStrAttrD, getAttr, Tok.attrs, List.lookup, hurl, himg]
  rw [hblk]
  cases hres : render_tokens env rest <;>
    simp [hres, Bind.bind, Option.bind]

/-- C7 witness: a concrete missing image followed by a text
paragraph, in the demonstration environment where no file exists. -/
theorem missing_image_placeholder_witness :
    add_image envDemo "missing.png" =
      [Block.para { items := [PItem.run { text := "[Image not found: " ++ "missing.png" ++ "]" }] }] ∧
    (∃ a b, "[Image not found: " ++ "missing.png" ++ "]" = a ++ "missing.png" ++ b) ∧
    render_tokens envDemo
        (Tok.mk "paragraph" [] [Tok.mk "image" [("src", AVal.s "missing.png")] [] "" ""] "" ""
          :: [Tok.mk "paragraph" [] [textTok "after"] "" ""]) =
      (render_tokens envDemo [Tok.mk "paragraph" [] [textTok "after"] "" ""]).map
        (fun bs =>
          Block.para { items := [PItem.run { text := "[Image not found: " ++ "missing.png" ++ "]" }] }
            :: bs) :=
  missing_image_placeholder envDemo "missing.png"
    [Tok.mk "paragraph" [] [textTok "after"] "" ""] rfl (by decide)

/-- Walking up from `Token.Text` finds no style row. -/
theorem get_token_style_text : get_token_style pygTextToken = none := by decide

/-- C6: a code block whose info-string has a first word that
`get_lexer_by_name` does not recognise renders without raising: the
plain-text fallback lexer is used, and (the fallback lexer emitting
only `Token.Text` chunks, which have no style row) every emitted item
is a monospace run with no color, no bold, no italic and no strike;
the block dispatcher succeeds on it, so conversion of the rest of the
document proceeds. -/
theorem unknown_language_plain_fallback (env : Env) (t : Tok)
    (hty : t.ty = "block_code")
    (hinfo : getStrAttrD t "info" "" ≠ "")
    (hlang : firstWordD (getStrAttrD t "info" "") ≠ "")
    (hget : env.getLexer (firstWordD (getStrAttrD t "info" "")) = none)
    (htext : ∀ p ∈ env.textLexer (codeBlockSource t), p.1 = pygTextToken) :
    (∃ items, render_block_code env t =
        [Block.para { shading := some CODE_BG_COLOR, items := items }] ∧
      ∀ it ∈ items, ∃ r, it = PItem.run r ∧ r.mono = true ∧ r.color = none ∧
        r.bold = false ∧ r.italic = false ∧ r.strike = false) ∧
    render_block env t = some (render_block_code env t) := by
  constructor
  · refine ⟨(env.textLexer (codeBlockSource t)).filterMap
      (fun p => if p.2 = "" then none else some (PItem.run (codeRun p.1 p.2))), ?_, ?_⟩
    · unfold render_block_code codeBlockSource
      simp [hinfo, hlang, hget, rawOrText]
    · intro it hit
      obtain ⟨p, hp, hpe⟩ := List.mem_filterMap.mp hit
      by_cases hv : p.2 = ""
      · simp [hv] at hpe
      · simp only [hv, if_false, Option.some.injEq] at hpe
        subst hpe
        have hpt := htext p hp
        rw [hpt]
        refine ⟨codeRun pygTextToken p.2, rfl, ?_⟩
        simp [codeRun, get_token_style_text]
  · cases t with
    | mk ty attrs cs raw txt =>
      simp only [Tok.ty] at hty
      subst hty
      rw [render_block.eq_def]
      simp only [reduceCtorEq, reduceIte, String.reduceEq]

/-- C6 witness: a fenced block tagged `frobnicate` in the
demonstration environment, whose lexer lookup always fails. -/
theorem unknown_language_plain_fallback_witness :
    (∃ items, render_block_code envDemo
          (Tok.mk "block_code" [("info", AVal.s "frobnicate")] [] "x = 1\n" "") =
        [Block.para { shading := some CODE_BG_COLOR, items := items }] ∧
      ∀ it ∈ items, ∃ r, it = PItem.run r ∧ r.mono = true ∧ r.color = none ∧
        r.bold = false ∧ r.italic = false ∧ r.strike = false) ∧
    render_block envDemo
        (Tok.mk "block_code" [("info", AVal.s "frobnicate")] [] "x = 1\n" "") =
      some (render_block_code envDemo
        (Tok.mk "block_code" [("info", AVal.s "frobnicate")] [] "x = 1\n" "")) :=
  unknown_language_plain_fallback envDemo
    (Tok.mk "block_code" [("info", AVal.s "frobnicate")] [] "x = 1\n" "")
    (by decide) (by decide) (by decide) rfl
    (by intro p hp
        simp only [envDemo, List.mem_singleton] at hp
        subst hp
        rfl)

/-- C5: in a task-list item, the checkbox glyph is attached exactly to
the text-bearing (paragraph or plain-text) child at running index 0 —
a filled glyph when the item's checked attribute is true, the empty
glyph otherwise — while a text-bearing child at any later index is
rendered as a styled list paragraph containing only its own inline
items, with no glyph; so the only paragraph of the item that can carry
the glyph is the one rendered for its first child, and subsequent
paragraphs of the same item never repeat it. -/
theorem task_list_checkbox (env : Env) (style : String) (checked : Bool)
    (c0 : Tok) (rest : List Tok) (j : Nat) (c : Tok) (cs2 : List Tok)
    (h0 : c0.ty = "paragraph" ∨ c0.ty = "block_text")
    (hj : 0 < j)
    (hc : c.ty = "paragraph" ∨ c.ty = "block_text") :
    render_item_children env style true checked 0 (c0 :: rest) =
      (render_item_children env style true checked 1 rest).map
        (fun bs =>
          (Block.para
              { style := some style
                items := PItem.run { text := checkboxGlyph checked } ::
                  (render_inline env false false false c0.children).1 } ::
            (render_inline env false false false c0.children).2) ++ bs) ∧
    render_item_children env style true checked j (c :: cs2) =
      (render_item_children env style true checked (j + 1) cs2).map
        (fun bs =>
          (Block.para
              { style := some style
                items := (render_inline env false false false c.children).1 } ::
            (render_inline env false false false c.children).2) ++ bs) ∧
    (∀ iattrs ichildren iraw itxt,
      render_list_item env style (Tok.mk "task_list_item" iattrs ichildren iraw itxt) =
        render_item_children env style true
          (getBoolAttrD (Tok.mk "task_list_item" iattrs ichildren iraw itxt)
            "checked" false) 0 ichildren) ∧
    checkboxGlyph true = "☑ " ∧ checkboxGlyph false = "☐ " := by
  have hjz : j ≠ 0 := Nat.pos_iff_ne_zero.mp hj
  refine ⟨?_, ?_, ?_, rfl, rfl⟩
  · rcases h0 with h0 | h0 <;>
      cases hrec : render_item_children env style true checked 1 rest <;>
        simp [render_item_children, h0, hrec, Bind.bind, Option.bind]
  · rcases hc with hc | hc <;>
      cases hrec : render_item_children env style true checked (j + 1) cs2 <;>
        simp [render_item_children, hc, hjz, hrec, Bind.bind, Option.bind]
  · intro iattrs ichildren iraw itxt
    simp [render_list_item]

/-- C5 witness: the checkbox theorem applied to a checked task item
whose first child is a paragraph, and to a block-text child at index
1. -/
theorem task_list_checkbox_witness :
    render_item_children envDemo "List Bullet" true true 0
        (Tok.mk "paragraph" [] [textTok "do"] "" "" :: []) =
      (render_item_children envDemo "List Bullet" true true 1 []).map
        (fun bs =>
          (Block.para
              { style := some "List Bullet"
                items := PItem.run { text := checkboxGlyph true } ::
                  (render_inline envDemo false false false
                    (Tok.mk "paragraph" [] [textTok "do"] "" "").children).1 } ::
            (render_inline envDemo false false false
              (Tok.mk "paragraph" [] [textTok "do"] "" "").children).2) ++ bs) ∧
    render_item_children envDemo "List Bullet" true true 1
        (Tok.mk "block_text" [] [textTok "more"] "" "" :: []) =
      (render_item_children envDemo "List Bullet" true true (1 + 1) []).map
        (fun bs =>
          (Block.para
              { style := some "List Bullet"
                items := (render_inline envDemo false false false
                  (Tok.mk "block_text" [] [textTok "more"] "" "").children).1 } ::
            (render_inline envDemo false false false
              (Tok.mk "block_text" [] [textTok "more"] "" "").children).2) ++ bs) ∧
    (∀ iattrs ichildren iraw itxt,
      render_list_item envDemo "List Bullet"
          (Tok.mk "task_list_item" iattrs ichildren iraw itxt) =
        render_item_children envDemo "List Bullet" true
          (getBoolAttrD (Tok.mk "task_list_item" iattrs ichildren iraw itxt)
            "checked" false) 0 ichildren) ∧
    checkboxGlyph true = "☑ " ∧ checkboxGlyph false = "☐ " :=
  task_list_checkbox envDemo "List Bullet" true
    (Tok.mk "paragraph" [] [textTok "do"] "" "") [] 1
    (Tok.mk "block_text" [] [textTok "more"] "" "") []
    (Or.inl (by decide)) (by decide) (Or.inr (by decide))

/-- An item of a paragraph carries explicit bold: a run with its bold
flag set (hyperlink elements have their own fixed style and are not
cell runs). -/
def itemBold : PItem → Prop
  | PItem.run r => r.bold = true
  | PItem.hyperlink _ _ => True

instance : DecidablePred itemBold := fun it =>
  match it with
  | PItem.run r => inferInstanceAs (Decidable (r.bold = true))
  | PItem.hyperlink _ _ => inferInstanceAs (Decidable True)

/-- Every run of every cell of the first (header) row of a rendered
grid is bold — the boldness part of the claim, as stated. -/
def headerAllBold (rows : List (List CellOut)) : Prop :=
  ∀ r0 ∈ rows.take 1, ∀ cell ∈ r0, ∀ it ∈ cell.items, itemBold it

/-- A table whose single header cell contains only a soft line
break. -/
def tblHeaderBreak : Tok :=
  Tok.mk "table" []
    [Tok.mk "table_head" []
      [Tok.mk "table_cell" [] [Tok.mk "softbreak" [] [] "" ""] "" ""] "" "",
     Tok.mk "table_body" [] [] "" ""] "" ""

/-- C4 counterexample: rendering `tblHeaderBreak` yields a one-cell
header whose only run is the newline emitted for the soft break, and
that run is not bold — `render_inline` styles text and code-span runs
with the inherited bold flag but appends break runs unstyled, so
"every run in the header row is bold" fails as stated. -/
theorem render_table_header_bold_cex :
    render_table envDemo tblHeaderBreak =
      some [Block.table [[CellOut.mk [PItem.run { text := "\n" }] [] none]]] ∧
    ¬ headerAllBold [[CellOut.mk [PItem.run { text := "\n" }] [] none]] := by
  constructor
  · simp [tblHeaderBreak, render_table, Tok.children, Tok.ty, Tok.attrs, buildRow, mkCell,
      getAlignAttr, getAttr, render_inline, optTraverse, List.enum, List.enumFrom,
      Bind.bind, Option.bind]
  · intro h
    have hx := h [CellOut.mk [PItem.run { text := "\n" }] [] none] (by simp)
      (CellOut.mk [PItem.run { text := "\n" }] [] none) (by simp)
      (PItem.run { text := "\n" }) (by simp [CellOut.items])
    simp [itemBold] at hx

/-- A run emitted for a soft or hard line break: the newline run or
the empty run carrying an explicit break, both with no styling. -/
def isBreakRun (r : Run) : Prop :=
  r = { text := "\n" } ∨ r = { text := "", brk := true }

/-- A paragraph item is either bold, an unstyled break run, or a
hyperlink element (whose style is fixed separately). -/
def itemBoldOrBreak : PItem → Prop
  | PItem.run r => r.bold = true ∨ isBreakRun r
  | PItem.hyperlink _ _ => True

/-- With the inherited bold flag set, every item the inline renderer
appends to the paragraph is bold or an unstyled break run; the flag
survives every recursion into strong, emphasis and strikethrough
wrappers. -/
theorem render_inline_bold_aux (env : Env) :
    ∀ n : Nat, ∀ cs : List Tok, sizeOf cs ≤ n → ∀ (i k : Bool),
      ∀ it ∈ (render_inline env true i k cs).1, itemBoldOrBreak it := by
  intro n
  induction n with
  | zero =>
    intro cs hcs
    cases cs with
    | nil => intro i k it hit; simp [render_inline] at hit
    | cons c rest =>
      exfalso
      have h1 := List.cons.sizeOf_spec c rest
      omega
  | succ n ih =>
    intro cs hcs i k it hit
    cases cs with
    | nil => simp [render_inline] at hit
    | cons c rest =>
      cases c with
      | mk ty attrs ccs raw txt =>
        have h1 := List.cons.sizeOf_spec (Tok.mk ty attrs ccs raw txt) rest
        have h2 : sizeOf (Tok.mk ty attrs ccs raw txt) =
            1 + sizeOf ty + sizeOf attrs + sizeOf ccs + sizeOf raw + sizeOf txt := by
          simp
        have hrest : sizeOf rest ≤ n := by omega
        have hccs : sizeOf ccs ≤ n := by omega
        simp only [render_inline] at hit
        rw [List.mem_append] at hit
        rcases hit with hmem | hmem
        · by_cases e1 : ty = "text"
          · simp only [e1, String.reduceEq, reduceIte] at hmem
            simp only [List.mem_singleton] at hmem
            subst hmem
            exact Or.inl rfl
          · by_cases e2 : ty = "strong"
            · simp only [e1, e2, String.reduceEq, reduceIte] at hmem
              exact ih ccs hccs i k it hmem
            · by_cases e3 : ty = "emphasis"
              · simp only [e1, e2, e3, String.reduceEq, reduceIte] at hmem
                exact ih ccs hccs true k it hmem
              · by_cases e4 : ty = "strikethrough"
                · simp only [e1, e2, e3, e4, String.reduceEq, reduceIte] at hmem
                  exact ih ccs hccs i true it hmem
                · by_cases e5 : ty = "codespan"
                  · simp only [e1, e2, e3, e4, e5, String.reduceEq, reduceIte] at hmem
                    simp only [List.mem_singleton] at hmem
                    subst hmem
                    exact Or.inl rfl
                  · by_cases e6 : ty = "link"
                    · simp only [e1, e2, e3, e4, e5, e6, String.reduceEq, reduceIte] at hmem
                      split at hmem
                      all_goals try split at hmem
                      all_goals
                        first
                          | (simp only [List.mem_singleton] at hmem
                             subst hmem
                             trivial)
                          | exact absurd hmem (by simp)
                    · by_cases e7 : ty = "image"
                      · simp only [e1, e2, e3, e4, e5, e6, e7, String.reduceEq, reduceIte] at hmem
                        split at hmem
                        all_goals exact absurd hmem (by simp)
                      · by_cases e8 : ty = "softbreak"
                        · simp only [e1, e2, e3, e4, e5, e6, e7, e8, String.reduceEq, reduceIte] at hmem
                          simp only [List.mem_singleton] at hmem
                          subst hmem
                          exact Or.inr (Or.inl rfl)
                        · by_cases e9 : ty = "linebreak"
                          · simp only [e1, e2, e3, e4, e5, e6, e7, e8, e9,
                              String.reduceEq, reduceIte] at hmem
                            simp only [List.mem_singleton] at hmem
                            subst hmem
                            exact Or.inr (Or.inr rfl)
                          · simp only [e1, e2, e3, e4, e5, e6, e7, e8, e9,
                              String.reduceEq, reduceIte] at hmem
                            simp at hmem
        · exact ih rest hrest i k it hmem

/-- Every item the inline renderer emits into a header cell (bold flag
true) is bold or an unstyled break run. -/
theorem render_inline_bold_items (env : Env) (cs : List Tok) (i k : Bool) :
    ∀ it ∈ (render_inline env true i k cs).1, itemBoldOrBreak it :=
  render_inline_bold_aux env (sizeOf cs) cs le_rfl i k

/-- A fallible loop over a list succeeds pointwise when every element
succeeds, producing the map of the per-element results. -/
theorem optTraverse_eq_map (f : α → Option β) (g : α → β) (l : List α)
    (h : ∀ x ∈ l, f x = some (g x)) : optTraverse f l = some (l.map g) := by
  induction l with
  | nil => rfl
  | cons x xs ih =>
    have hx := h x (List.mem_cons_self _ _)
    have hxs := ih (fun y hy => h y (List.mem_cons_of_mem _ hy))
    simp [optTraverse, hx, hxs, Bind.bind, Option.bind]


/-- What `render_inline` can append inside the enclosing container (a
table cell, for cell content): a picture, or the missing-image
placeholder paragraph, whose single text run carries no styling. -/
def cellExtraOk : Block → Prop := fun blk =>
  (∃ path, blk = Block.picture path) ∨
  (∃ url, blk = Block.para
    { items := [PItem.run { text := "[Image not found: " ++ url ++ "]" }] })

/-- Every block the inline renderer appends to the enclosing container
is a picture or a missing-image placeholder paragraph — the image
branch is the only one that appends blocks, through `add_image`. -/
theorem render_inline_extra_aux (env : Env) :
    ∀ n : Nat, ∀ cs : List Tok, sizeOf cs ≤ n → ∀ (b i k : Bool),
      ∀ blk ∈ (render_inline env b i k cs).2, cellExtraOk blk := by
  intro n
  induction n with
  | zero =>
    intro cs hcs
    cases cs with
    | nil => intro b i k blk hblk; simp [render_inline] at hblk
    | cons c rest =>
      exfalso
      have h1 := List.cons.sizeOf_spec c rest
      omega
  | succ n ih =>
    intro cs hcs b i k blk hblk
    cases cs with
    | nil => simp [render_inline] at hblk
    | cons c rest =>
      cases c with
      | mk ty attrs ccs raw txt =>
        have h1 := List.cons.sizeOf_spec (Tok.mk ty attrs ccs raw txt) rest
        have h2 : sizeOf (Tok.mk ty attrs ccs raw txt) =
            1 + sizeOf ty + sizeOf attrs + sizeOf ccs + sizeOf raw + sizeOf txt := by
          simp
        have hrest : sizeOf rest ≤ n := by omega
        have hccs : sizeOf ccs ≤ n := by omega
        simp only [render_inline] at hblk
        rw [List.mem_append] at hblk
        rcases hblk with hmem | hmem
        · by_cases e1 : ty = "text"
          · simp only [e1, String.reduceEq, reduceIte] at hmem
            exact absurd hmem (by simp)
          · by_cases e2 : ty = "strong"
            · simp only [e1, e2, String.reduceEq, reduceIte] at hmem
              exact ih ccs hccs true i k blk hmem
            · by_cases e3 : ty = "emphasis"
              · simp only [e1, e2, e3, String.reduceEq, reduceIte] at hmem
                exact ih ccs hccs b true k blk hmem
              · by_cases e4 : ty = "strikethrough"
                · simp only [e1, e2, e3, e4, String.reduceEq, reduceIte] at hmem
                  exact ih ccs hccs b i true blk hmem
                · by_cases e5 : ty = "codespan"
                  · simp only [e1, e2, e3, e4, e5, String.reduceEq, reduceIte] at hmem
                    exact absurd hmem (by simp)
                  · by_cases e6 : ty = "link"
                    · simp only [e1, e2, e3, e4, e5, e6, String.reduceEq,
                        reduceIte] at hmem
                      split at hmem
                      all_goals try split at hmem
                      all_goals exact absurd hmem (by simp)
                    · by_cases e7 : ty = "image"
                      · simp only [e1, e2, e3, e4, e5, e6, e7, String.reduceEq,
                          reduceIte] at hmem
                        split at hmem
                        all_goals try simp only [add_image] at hmem
                        all_goals try split at hmem
                        all_goals
                          first
                            | (simp only [List.mem_singleton] at hmem
                               subst hmem
                               exact Or.inr ⟨_, rfl⟩)
                            | (simp only [List.mem_singleton] at hmem
                               subst hmem
                               exact Or.inl ⟨_, rfl⟩)
                            | exact absurd hmem (by simp)
                      · by_cases e8 : ty = "softbreak"
                        · simp only [e1, e2, e3, e4, e5, e6, e7, e8, String.reduceEq,
                            reduceIte] at hmem
                          exact absurd hmem (by simp)
                        · by_cases e9 : ty = "linebreak"
                          · simp only [e1, e2, e3, e4, e5, e6, e7, e8, e9,
                              String.reduceEq, reduceIte] at hmem
                            exact absurd hmem (by simp)
                          · simp only [e1, e2, e3, e4, e5, e6, e7, e8, e9,
                              String.reduceEq, reduceIte] at hmem
                            exact absurd hmem (by simp)
        · exact ih rest hrest b i k blk hmem

/-- Every block the inline renderer appends inside a table cell is a
picture or a missing-image placeholder paragraph. -/
theorem render_inline_extra_blocks (env : Env) (cs : List Tok) (b i k : Bool) :
    ∀ blk ∈ (render_inline env b i k cs).2, cellExtraOk blk :=
  render_inline_extra_aux env (sizeOf cs) cs le_rfl b i k

/-- C4 (amended): a table token with a header row of N cells and a
body of M rows of N cells each renders to a table of exactly N columns
and M+1 rows; every item of a header-row cell's paragraph is a bold
run, an unstyled line-break run, or a hyperlink element (text and
code-span runs always receive the header bold flag; soft and hard
break runs are the only runs the inline renderer leaves unstyled);
the only other content a header-row cell receives is pictures and
missing-image placeholder paragraphs, whose single text run is
unstyled, not bold; and a column whose header cell declares a left,
center or right alignment carries that alignment in the corresponding
cell paragraph of every row. -/
theorem render_table_shape (env : Env) (N : Nat)
    (tattrs hattrs battrs : List (String × AVal))
    (hcells brows : List Tok) (traw ttxt hraw htxt braw btxt : String)
    (hN : hcells.length = N)
    (hrows : ∀ r ∈ brows, r.children.length = N) :
    ∃ grid, render_table env (Tok.mk "table" tattrs
        [Tok.mk "table_head" hattrs hcells hraw htxt,
         Tok.mk "table_body" battrs brows braw btxt] traw ttxt) =
      some [Block.table grid] ∧
    grid.length = brows.length + 1 ∧
    (∀ row ∈ grid, row.length = N) ∧
    (∀ r0 ∈ grid.take 1, ∀ cell ∈ r0, ∀ it ∈ cell.items, itemBoldOrBreak it) ∧
    (∀ r0 ∈ grid.take 1, ∀ cell ∈ r0, ∀ blk ∈ cell.extra, cellExtraOk blk) ∧
    (∀ ci a, (hcells.map getAlignAttr).get? ci = some (some a) →
      (a = "left" ∨ a = "center" ∨ a = "right") →
      ∀ row ∈ grid, ∀ cell, row.get? ci = some cell → cell.align = some a) := by
  have hlen : ∀ rw ∈ ((hcells, true) ::
      brows.map (fun r => (r.children, false))), rw.1.length = N := by
    intro rw hrw
    rcases List.mem_cons.mp hrw with he | hmem
    · subst he
      exact hN
    · obtain ⟨r, hr, rfl⟩ := List.mem_map.mp hmem
      exact hrows r hr
  have htrav : optTraverse
      (fun rw => buildRow env (hcells.map getAlignAttr) hcells.length rw.1 rw.2)
      ((hcells, true) :: brows.map (fun r => (r.children, false))) =
      some (((hcells, true) :: brows.map (fun r => (r.children, false))).map
        (fun rw => rw.1.enum.map
          (fun p => mkCell env (hcells.map getAlignAttr) rw.2 p.1 p.2))) := by
    refine optTraverse_eq_map _ _ _ ?_
    intro rw hrw
    have h1 := hlen rw hrw
    simp [buildRow, h1, hN]
  refine ⟨((hcells, true) :: brows.map (fun r => (r.children, false))).map
    (fun rw => rw.1.enum.map
      (fun p => mkCell env (hcells.map getAlignAttr) rw.2 p.1 p.2)),
    ?_, ?_, ?_, ?_, ?_, ?_⟩
  · unfold render_table
    simp only [Tok.children, Tok.ty, Tok.attrs, List.foldl, String.reduceEq, reduceIte,
      List.isEmpty_cons, Bool.false_eq_true, if_false, List.singleton_append]
    simp only [Tok.children] at htrav
    rw [htrav]
    rfl
  · simp
  · intro row hrow
    obtain ⟨rw, hrw, rfl⟩ := List.mem_map.mp hrow
    simp only [List.length_map, List.enum_length]
    exact hlen rw hrw
  · intro r0 hr0 cell hcell it hit
    simp only [List.map_cons, List.take_succ_cons, List.take_zero,
      List.mem_singleton] at hr0
    subst hr0
    obtain ⟨p, hp, rfl⟩ := List.mem_map.mp hcell
    simp only [mkCell, CellOut.items] at hit
    exact render_inline_bold_items env _ false false it hit
  · intro r0 hr0 cell hcell blk hblk
    simp only [List.map_cons, List.take_succ_cons, List.take_zero,
      List.mem_singleton] at hr0
    subst hr0
    obtain ⟨p, hp, rfl⟩ := List.mem_map.mp hcell
    simp only [mkCell, CellOut.extra] at hblk
    exact render_inline_extra_blocks env _ true false false blk hblk
  · intro ci a hget ha row hrow cell hcell
    obtain ⟨rw, hrw, rfl⟩ := List.mem_map.mp hrow
    rw [List.get?_map, List.get?_enum] at hcell
    cases hq : rw.1.get? ci with
    | none =>
      rw [hq] at hcell
      exact Option.noConfusion hcell
    | some c =>
      rw [hq] at hcell
      obtain rfl := Option.some.inj hcell
      rw [List.get?_map, List.get?_eq_getElem?] at hget
      rcases ha with rfl | rfl | rfl <;> simp [mkCell, CellOut.align, hget]

/-- C4 witness: the amended theorem applied to a concrete one-column
table with a center-aligned header cell and one body row. -/
theorem render_table_shape_witness :
    ∃ grid, render_table envDemo (Tok.mk "table" []
        [Tok.mk "table_head" []
          [Tok.mk "table_cell" [("align", AVal.s "center")] [textTok "h"] "" ""] "" "",
         Tok.mk "table_body" []
          [Tok.mk "table_row" [] [Tok.mk "table_cell" [] [textTok "d"] "" ""] "" ""]
          "" ""] "" "") =
      some [Block.table grid] ∧
    grid.length = [Tok.mk "table_row" [] [Tok.mk "table_cell" [] [textTok "d"] "" ""] "" ""].length + 1 ∧
    (∀ row ∈ grid, row.length = 1) ∧
    (∀ r0 ∈ grid.take 1, ∀ cell ∈ r0, ∀ it ∈ cell.items, itemBoldOrBreak it) ∧
    (∀ r0 ∈ grid.take 1, ∀ cell ∈ r0, ∀ blk ∈ cell.extra, cellExtraOk blk) ∧
    (∀ ci a, ([Tok.mk "table_cell" [("align", AVal.s "center")] [textTok "h"] "" ""].map
        getAlignAttr).get? ci = some (some a) →
      (a = "left" ∨ a = "center" ∨ a = "right") →
      ∀ row ∈ grid, ∀ cell, row.get? ci = some cell → cell.align = some a) :=
  render_table_shape envDemo 1 [] [] []
    [Tok.mk "table_cell" [("align", AVal.s "center")] [textTok "h"] "" ""]
    [Tok.mk "table_row" [] [Tok.mk "table_cell" [] [textTok "d"] "" ""] "" ""]
    "" "" "" "" "" "" rfl (by decide)
